import Mathlib

/-!
Verification of the drovp/types contract (src/index.d.ts) and of the engine
behaviour its specification describes.  The repository ships only type
declarations, so the engine operations (options resolver, item dispatcher,
dependency lifecycle) are modelled from the specification's words, while the
declared shapes (items, acceptance flags, modal results) are transcribed
directly from the declaration file.
-/

namespace Drovp

/-! ### Items

Transcribed from src/index.d.ts: `ItemFile`, `ItemDirectory`, `ItemBlob`,
`ItemString`, `ItemUrl` (lines 314-347).  `id` and `created` come from
`ItemBase`; blob contents are kept opaque as a list of bytes.
-/

structure ItemFile where
  id : String
  created : Nat
  type : String
  path : String
  size : Nat
deriving DecidableEq, Repr

structure ItemDirectory where
  id : String
  created : Nat
  path : String
deriving DecidableEq, Repr

structure ItemBlob where
  id : String
  created : Nat
  mime : String
  contents : List Nat
deriving DecidableEq, Repr

structure ItemString where
  id : String
  created : Nat
  type : String
  contents : String
deriving DecidableEq, Repr

structure ItemUrl where
  id : String
  created : Nat
  url : String
deriving DecidableEq, Repr

inductive Item where
  | file (f : ItemFile)
  | directory (d : ItemDirectory)
  | blob (b : ItemBlob)
  | string (s : ItemString)
  | url (u : ItemUrl)
deriving DecidableEq, Repr

/-- The five item kinds an acceptance declaration may key on
(the keys of `AcceptsFlags`, src/index.d.ts lines 57-63). -/
inductive ItemKind where
  | files
  | directories
  | blobs
  | strings
  | urls
deriving DecidableEq, Repr, Fintype

def Item.itemKind : Item → ItemKind
  | .file _ => .files
  | .directory _ => .directories
  | .blob _ => .blobs
  | .string _ => .strings
  | .url _ => .urls

/-- The natural identifying field a string or RegExp alternative is matched
against: file extension for files, mime for blobs, declared type for strings,
full string for urls, path for directories. -/
def Item.naturalField : Item → String
  | .file f => f.type
  | .directory d => d.path
  | .blob b => b.mime
  | .string s => s.type
  | .url u => u.url

/-! ### Acceptance declarations

Transcribed from `AcceptsFlags` (src/index.d.ts lines 57-63): each key's value
is a boolean, a single alternative, or an array of alternatives, where an
alternative is a string, a RegExp (modelled as an opaque test on the matched
field), or a predicate over the typed item and the resolved options.
-/

inductive AcceptAlt (O : Type) where
  | strPat (s : String)
  | rePat (test : String → Bool)
  | predPat (f : Item → O → Bool)

inductive AcceptEntry (O : Type) where
  | flag (b : Bool)
  | single (a : AcceptAlt O)
  | many (l : List (AcceptAlt O))

structure AcceptsFlags (O : Type) where
  files : Option (AcceptEntry O) := none
  directories : Option (AcceptEntry O) := none
  blobs : Option (AcceptEntry O) := none
  strings : Option (AcceptEntry O) := none
  urls : Option (AcceptEntry O) := none

def AcceptsFlags.entryFor {O : Type} (flags : AcceptsFlags O) : ItemKind → Option (AcceptEntry O)
  | .files => flags.files
  | .directories => flags.directories
  | .blobs => flags.blobs
  | .strings => flags.strings
  | .urls => flags.urls

/-- Modelled from the spec: §4.2 Step 1 — how one alternative matches an item.
A string alternative compares against the item's natural identifying field, a
RegExp alternative tests that field, a predicate alternative receives
`(item, resolvedOptions)`. -/
def matchAlt {O : Type} (a : AcceptAlt O) (it : Item) (o : O) : Bool :=
  match a with
  | .strPat s => it.naturalField == s
  | .rePat t => t it.naturalField
  | .predPat f => f it o

/-- Modelled from the spec: the alternatives an entry denotes.  `true` accepts
every item of the kind (one always-true alternative), `false` accepts none
(no alternatives), a single value is one alternative, an array is its list. -/
def AcceptEntry.alternatives {O : Type} : AcceptEntry O → List (AcceptAlt O)
  | .flag true => [.predPat fun _ _ => true]
  | .flag false => []
  | .single a => [a]
  | .many l => l

/-- Modelled from the spec: §4.2 Step 1 acceptance filtering.  An item is
accepted iff its kind has a declaration entry and at least one alternative in
that entry matches (OR semantics); absence of the kind's key accepts nothing. -/
def accepted {O : Type} (flags : AcceptsFlags O) (it : Item) (o : O) : Bool :=
  match flags.entryFor it.itemKind with
  | none => false
  | some e => e.alternatives.any fun a => matchAlt a it o

/-! ### Alternative forms admitted by each historical `AcceptsFlags` version

The declaration file concatenates three historical versions of the contract.
For claim C10 we record, for each version and each key, which syntactic forms
of alternative the declared union type admits.
-/

inductive AltForm where
  | booleanForm
  | stringForm
  | predicateForm
  | regexpForm
deriving DecidableEq, Repr, Fintype

/-- Transcribed from src/index.d.ts lines 57-63 (first version of
`AcceptsFlags`): `blobs` admits `boolean | string | BlobFilter` and arrays
thereof, with no `RegExp`; the other four keys also admit `RegExp`. -/
def acceptsAltFormsV1 : ItemKind → List AltForm
  | .files => [.booleanForm, .stringForm, .predicateForm, .regexpForm]
  | .directories => [.booleanForm, .stringForm, .predicateForm, .regexpForm]
  | .blobs => [.booleanForm, .stringForm, .predicateForm]
  | .strings => [.booleanForm, .stringForm, .predicateForm, .regexpForm]
  | .urls => [.booleanForm, .stringForm, .predicateForm, .regexpForm]

/-- Transcribed from src/index.d.ts lines 739-745 (second version of
`AcceptsFlags`), textually identical to the first for every key. -/
def acceptsAltFormsV2 : ItemKind → List AltForm
  | .files => [.booleanForm, .stringForm, .predicateForm, .regexpForm]
  | .directories => [.booleanForm, .stringForm, .predicateForm, .regexpForm]
  | .blobs => [.booleanForm, .stringForm, .predicateForm]
  | .strings => [.booleanForm, .stringForm, .predicateForm, .regexpForm]
  | .urls => [.booleanForm, .stringForm, .predicateForm, .regexpForm]

/-- Transcribed from src/index.d.ts lines 1565-1571 (third version of
`AcceptsFlags`), textually identical to the first for every key. -/
def acceptsAltFormsV3 : ItemKind → List AltForm
  | .files => [.booleanForm, .stringForm, .predicateForm, .regexpForm]
  | .directories => [.booleanForm, .stringForm, .predicateForm, .regexpForm]
  | .blobs => [.booleanForm, .stringForm, .predicateForm]
  | .strings => [.booleanForm, .stringForm, .predicateForm, .regexpForm]
  | .urls => [.booleanForm, .stringForm, .predicateForm, .regexpForm]

/-- The three historical versions of the acceptance declaration type. -/
def acceptsFlagsVersions : List (ItemKind → List AltForm) :=
  [acceptsAltFormsV1, acceptsAltFormsV2, acceptsAltFormsV3]

/-! ### Modal/dialog service result shapes

Transcribed from `CommonModals` (src/index.d.ts lines 361-375) together with
`ModalResult` (458-462), `ModalWindowResult` (464-467),
`OpenDialogReturnValue` (589-607) and `SaveDialogReturnValue` (659-676):
for each operation, whether its resolved result carries a `canceled` field,
a `payload` field, and a `modifiers` field.
-/

inductive ModalOp where
  | alert
  | confirm
  | prompt
  | promptOptions
  | showOpenDialog
  | showSaveDialog
  | openModalWindow
deriving DecidableEq, Repr, Fintype

structure ResultShape where
  hasCanceled : Bool
  hasPayload : Bool
  hasModifiers : Bool
deriving DecidableEq, Repr

/-- Transcribed from src/index.d.ts: `alert` resolves to `void` (no result
object); `confirm`, `prompt` and `promptOptions` resolve to
`ModalResult = \x7bcanceled, payload, modifiers\x7d`; `showOpenDialog` resolves to
`OpenDialogReturnValue = \x7bcanceled, filePaths, bookmarks?\x7d` (no `payload`
field); `showSaveDialog` resolves to
`SaveDialogReturnValue = \x7bcanceled, filePath?, bookmark?\x7d` (no `payload`
field); `openModalWindow` resolves to
`ModalWindowResult = \x7bcanceled, payload\x7d` (no `modifiers`). -/
def modalResultShape : ModalOp → ResultShape
  | .alert => ⟨false, false, false⟩
  | .confirm => ⟨true, true, true⟩
  | .prompt => ⟨true, true, true⟩
  | .promptOptions => ⟨true, true, true⟩
  | .showOpenDialog => ⟨true, false, false⟩
  | .showSaveDialog => ⟨true, false, false⟩
  | .openModalWindow => ⟨true, true, false⟩

/-! ### Grouping items into operations

The bulk policy is transcribed from `ProcessorConfig.bulk`
(src/index.d.ts line 106): a boolean, or a predicate over the full accepted
item list and resolved options; an absent policy behaves as the flag `false`.
The grouping step itself is modelled from the spec (§4.2 Step 4).
-/

structure Operation (O : Type) where
  options : O
  items : List Item
  item : Option Item

inductive BulkPolicy (O : Type) where
  | flag (b : Bool)
  | pred (f : List Item → O → Bool)

/-- Evaluates the bulk policy against the whole candidate set, returning the
decision together with how many times a plugin-authored predicate was
invoked. -/
def evalBulk {O : Type} : BulkPolicy O → List Item → O → Bool × Nat
  | .flag b, _, _ => (b, 0)
  | .pred f, items, o => (f items o, 1)

/-- Modelled from the spec: §4.2 Step 4 grouping.  The policy is evaluated
once against the final accepted set; if truthy, one operation carries the
full set (singular `item` undefined); if falsy, one operation is emitted per
item with a single-element `items` and `item` set to that element.  The
second component counts predicate invocations in this match cycle. -/
def groupOperations {O : Type} (policy : BulkPolicy O) (acceptedSet : List Item) (o : O) :
    List (Operation O) × Nat :=
  let r := evalBulk policy acceptedSet o
  if r.1 then ([⟨o, acceptedSet, none⟩], r.2)
  else (acceptedSet.map fun it => ⟨o, [it], some it⟩, r.2)

/-! ### Dependency lifecycle

`DependencyConfig` (src/index.d.ts lines 131-135) declares `load` resolving
to a payload or a failure.  The lifecycle state machine and the
one-in-flight-load-per-name rule are modelled from the spec (§4.3, §5).
-/

inductive LoadOutcome where
  | ready (payload : String)
  | failedLoad (error : String)
deriving DecidableEq, Repr

def LoadOutcome.isFailed : LoadOutcome → Bool
  | .ready _ => false
  | .failedLoad _ => true

def LoadOutcome.payloadOf : LoadOutcome → Option String
  | .ready p => some p
  | .failedLoad _ => none

/-- Modelled from the spec: §4.3 per-name dependency cell.  `loading` records
the requesters awaiting the single in-flight load; `done` is the resolved
state (ready or failed) for this process lifetime. -/
inductive DepState where
  | unloaded
  | loading (waiters : List Nat)
  | done (r : LoadOutcome)
deriving DecidableEq, Repr

structure DepCell where
  state : DepState
  attempts : Nat
deriving DecidableEq, Repr

/-- Modelled from the spec: a `load()` request by requester `rid`.  From
`unloaded` it starts the one underlying load attempt; while `loading` the
requester joins the waiters of the in-flight load instead of issuing a
duplicate; a resolved cell is left unchanged. -/
def requestLoad (c : DepCell) (rid : Nat) : DepCell :=
  match c.state with
  | .unloaded => { state := .loading [rid], attempts := c.attempts + 1 }
  | .loading ws => { state := .loading (ws ++ [rid]), attempts := c.attempts }
  | .done _ => c

/-- Modelled from the spec: completion of the in-flight load with outcome `r`.
Every waiter observes the same resolved state; the notifications delivered are
returned alongside the updated cell. -/
def completeLoad (c : DepCell) (r : LoadOutcome) : DepCell × List (Nat × LoadOutcome) :=
  match c.state with
  | .loading ws => ({ state := .done r, attempts := c.attempts }, ws.map fun w => (w, r))
  | _ => (c, [])

/-- A burst of concurrent `load()` requests, serialized by the atomicity of
registry transitions (spec §5). -/
def runRequests (c : DepCell) (rids : List Nat) : DepCell :=
  rids.foldl requestLoad c

/-- Modelled from the spec: §4.3 — gathering an operation's dependencies
before dispatch.  A failed required dependency prevents dispatch and surfaces
the failure; failed optional dependencies yield an absent entry. -/
def resolveDependencies (required optionalDeps : List String)
    (outcome : String → LoadOutcome) : Except String (List (String × Option String)) :=
  match required.find? fun n => (outcome n).isFailed with
  | some n => .error n
  | none =>
    .ok ((required.map fun n => (n, (outcome n).payloadOf)) ++
      (optionalDeps.map fun n => (n, (outcome n).payloadOf)))

/-! ### Operation preparation

`ProcessorConfig.operationPreparator` (src/index.d.ts lines 114-117) receives
the core payload fields (`Pick<Payload, 'id' | 'options' | 'input' | 'inputs'>`)
and resolves to a payload or a falsy value (`null | undefined | false | void`).
The engine step around it is modelled from the spec (§4.2 Step 5, §7(e)).
-/

structure Payload (O : Type) where
  id : String
  options : O
  item : Option Item
  items : Option (List Item)
  extra : List (String × String)

/-- The core fields handed to the preparator (the `Pick` above): the payload
with no extra fields. -/
def Payload.core {O : Type} (p : Payload O) : Payload O :=
  { p with extra := [] }

inductive PrepOut (O : Type) where
  | falsy
  | payload (p : Payload O)

/-- Modelled from the spec: §4.2 Step 5.  A falsy return silently cancels the
operation (`Except.ok none`, not an error); a returned payload replaces the
operation's payload, contributing its extra fields while the engine keeps the
core fields of the draft; no declared preparator passes the draft through. -/
def applyPreparator {O : Type} (prep : Option (Payload O → PrepOut O)) (op : Payload O) :
    Except String (Option (Payload O)) :=
  match prep with
  | none => .ok (some op)
  | some f =>
    match f op.core with
    | .falsy => .ok none
    | .payload p =>
      .ok (some { id := op.id, options := op.options, item := op.item, items := op.items,
                  extra := p.extra })

/-! ### Options schema and resolver

The node shapes are transcribed from the `Option*` interfaces of
src/index.d.ts (lines 144-284): each serializable node carries a `name`, an
optional `default` conforming to its value shape, and kind-specific fields
(`nullable` for number and select, `options` for select in array or object
form, a simple sub-schema for list, a nested schema for namespace and
collection).  The resolver itself is modelled from the spec (§4.1).
-/

inductive Value where
  | vBool (b : Bool)
  | vNum (n : Int)
  | vStr (s : String)
  | vNull
  | vList (items : List Value)
  | vObj (fields : List (String × Value))

/-- Transcribed from `OptionSelect.options`
(src/index.d.ts lines 203-213): `(string | number)[]` array form (kept as
strings) or `\x7b[x: string]: string\x7d` object form. -/
inductive SelectOptions where
  | arrayForm (entries : List String)
  | objectForm (pairs : List (String × String))
deriving DecidableEq, Repr

/-- The selectable entries: the array elements, or the object keys. -/
def SelectOptions.entries : SelectOptions → List String
  | .arrayForm es => es
  | .objectForm ps => ps.map Prod.fst

/-- Transcribed from `OptionList.schema` (src/index.d.ts lines 215-227): a
list node holds a homogeneous sequence of one simple node type — number,
string-like (string, color, path), or select. -/
inductive ListItemSchema where
  | numberItem
  | stringItem
  | selectItem (opts : SelectOptions)
deriving DecidableEq, Repr

inductive OptionNode where
  | booleanNode (name : String) (dflt : Option Bool)
  | numberNode (name : String) (dflt : Option Int) (nullable : Bool)
  | stringNode (name : String) (dflt : Option String)
  | colorNode (name : String) (dflt : Option String)
  | pathNode (name : String) (dflt : Option String)
  | selectNode (name : String) (dflt : Option String) (opts : SelectOptions) (nullable : Bool)
  | listNode (name : String) (dflt : Option (List Value)) (item : ListItemSchema)
  | namespaceNode (name : String) (schema : List OptionNode)
      (dflt : Option (List (String × Value)))
  | collectionNode (name : String) (schema : List OptionNode) (dflt : Option (List Value))
  | categoryNode (name : String) (dflt : Option String) (opts : List String)

def nodeName : OptionNode → String
  | .booleanNode n _ => n
  | .numberNode n _ _ => n
  | .stringNode n _ => n
  | .colorNode n _ => n
  | .pathNode n _ => n
  | .selectNode n _ _ _ => n
  | .listNode n _ _ => n
  | .namespaceNode n _ _ => n
  | .collectionNode n _ _ => n
  | .categoryNode n _ _ => n

/-- First binding for a key in a partial value object. -/
def lookupField (k : String) : List (String × Value) → Option Value
  | [] => none
  | p :: rest => if p.1 = k then some p.2 else lookupField k rest

/-- Whether a value matches the element shape of a list node's sub-schema. -/
def elemMatches : ListItemSchema → Value → Bool
  | .numberItem, .vNum _ => true
  | .stringItem, .vStr _ => true
  | .selectItem opts, .vStr s => opts.entries.contains s
  | _, _ => false

/-- Modelled from the spec: the boolean zero value is `false`. -/
def fallbackBool (dflt : Option Bool) : Value :=
  match dflt with
  | some b => .vBool b
  | none => .vBool false

/-- Modelled from the spec: the number zero value is `0`, or `null` when the
node is nullable. -/
def fallbackNum (dflt : Option Int) (nullable : Bool) : Value :=
  match dflt with
  | some n => .vNum n
  | none => if nullable then .vNull else .vNum 0

/-- Modelled from the spec: the string/path/color/category zero value is the
empty string. -/
def fallbackStr (dflt : Option String) : Value :=
  match dflt with
  | some s => .vStr s
  | none => .vStr ""

/-- Modelled from the spec: a select defaults to `null` when nullable;
otherwise, with no declared default, it falls back to the first entry of its
options (first array element, or first object key). -/
def fallbackSel (dflt : Option String) (opts : SelectOptions) (nullable : Bool) : Value :=
  match dflt with
  | some s => .vStr s
  | none =>
    if nullable then .vNull
    else
      match opts.entries with
      | e :: _ => .vStr e
      | [] => .vNull

/-- Modelled from the spec: the list zero value is `[]`. -/
def fallbackList (dflt : Option (List Value)) : Value :=
  match dflt with
  | some vs => .vList vs
  | none => .vList []

/-- The object supplied to a namespace node's recursive resolution: the
supplied object if one was given, else the declared default, else `\x7b\x7d`. -/
def namespaceInput (v : Option Value) (dflt : Option (List (String × Value))) :
    List (String × Value) :=
  match v with
  | some (.vObj m) => m
  | _ =>
    match dflt with
    | some m => m
    | none => []

/-- The item list supplied to a collection node's recursive resolution. -/
def collectionInput (v : Option Value) (dflt : Option (List Value)) : List Value :=
  match v with
  | some (.vList vs) => vs
  | _ =>
    match dflt with
    | some vs => vs
    | none => []

/-- One collection item viewed as a value object. -/
def itemObj : Value → List (String × Value)
  | .vObj m => m
  | _ => []

mutual

/-- Modelled from the spec: §4.1 — resolving one node against the value (if
any) that the partial value tree supplies for it: a supplied value matching
the node's shape is used verbatim, otherwise the declared default, otherwise
the node-kind's zero value; composite nodes resolve recursively. -/
def resolveNode : OptionNode → Option Value → Value
  | .booleanNode _ d, v =>
    match v with
    | some (.vBool b) => .vBool b
    | _ => fallbackBool d
  | .numberNode _ d nb, v =>
    match v with
    | some (.vNum n) => .vNum n
    | some .vNull => if nb then .vNull else fallbackNum d nb
    | _ => fallbackNum d nb
  | .stringNode _ d, v =>
    match v with
    | some (.vStr s) => .vStr s
    | _ => fallbackStr d
  | .colorNode _ d, v =>
    match v with
    | some (.vStr s) => .vStr s
    | _ => fallbackStr d
  | .pathNode _ d, v =>
    match v with
    | some (.vStr s) => .vStr s
    | _ => fallbackStr d
  | .selectNode _ d opts nb, v =>
    match v with
    | some (.vStr s) => if opts.entries.contains s then .vStr s else fallbackSel d opts nb
    | some .vNull => if nb then .vNull else fallbackSel d opts nb
    | _ => fallbackSel d opts nb
  | .listNode _ d item, v =>
    match v with
    | some (.vList vs) => if vs.all (elemMatches item) then .vList vs else fallbackList d
    | _ => fallbackList d
  | .namespaceNode _ sch d, v => .vObj (resolveSchema sch (namespaceInput v d))
  | .collectionNode _ sch d, v => .vList (resolveItems sch (collectionInput v d))
  | .categoryNode _ d _, v =>
    match v with
    | some (.vStr s) => .vStr s
    | _ => fallbackStr d
termination_by n _v => (sizeOf n, 0)

/-- Modelled from the spec: resolving a whole schema level yields one binding
per node, in schema order, each node resolved against the value the partial
object supplies under its name. -/
def resolveSchema : List OptionNode → List (String × Value) → List (String × Value)
  | [], _ => []
  | n :: rest, supplied =>
    (nodeName n, resolveNode n (lookupField (nodeName n) supplied)) ::
      resolveSchema rest supplied
termination_by s _supplied => (sizeOf s, 0)

/-- Modelled from the spec: each collection item resolves recursively against
the sibling schema. -/
def resolveItems : List OptionNode → List Value → List Value
  | _, [] => []
  | sch, v :: vs => .vObj (resolveSchema sch (itemObj v)) :: resolveItems sch vs
termination_by sch vs => (sizeOf sch, 1 + sizeOf vs)

end

mutual

/-- Well-formedness of a node: nested schemas have unique sibling names. -/
def nodeWF : OptionNode → Bool
  | .namespaceNode _ sch _ => schemaWF sch
  | .collectionNode _ sch _ => schemaWF sch
  | _ => true
termination_by n => (sizeOf n, 0)

/-- Well-formedness of a schema level: sibling names are unique (the data
model invariant of §3) and every node is itself well-formed. -/
def schemaWF : List OptionNode → Bool
  | [] => true
  | n :: rest =>
    !((rest.map nodeName).contains (nodeName n)) && nodeWF n && schemaWF rest
termination_by s => (sizeOf s, 1)

end

/-! ### Directory expansion

`ProcessorConfig.expandDirectory` (src/index.d.ts line 107) is a predicate
over the directory item and the resolved options.  The recursive walk, its
cycle guard over canonical paths, and the re-run of acceptance filtering on
the expanded set are modelled from the spec (§4.2 Step 2).
-/

inductive DirChild where
  | childFile (f : ItemFile)
  | childDir (canonicalPath : String)
deriving DecidableEq, Repr

/-- A directory listing keyed by canonical path; symbolic links collapse to
the canonical path of their target. -/
abbrev FileSystem := List (String × List DirChild)

def fsKeys (fs : FileSystem) : List String := fs.map Prod.fst

def childrenOf (fs : FileSystem) (p : String) : List DirChild :=
  match fs.find? fun e => e.1 == p with
  | some e => e.2
  | none => []

def filesOf (fs : FileSystem) (p : String) : List ItemFile :=
  (childrenOf fs p).filterMap fun c =>
    match c with
    | .childFile f => some f
    | .childDir _ => none

def subdirsOf (fs : FileSystem) (p : String) : List String :=
  (childrenOf fs p).filterMap fun c =>
    match c with
    | .childFile _ => none
    | .childDir q => some q

/-- How many canonical paths of the filesystem have not been visited yet: the
quantity the cycle guard makes decrease across the walk. -/
def unvisitedCount (fs : FileSystem) (visited : List String) : Nat :=
  ((fsKeys fs).filter fun k => !(visited.contains k)).length

/-- Modelled from the spec: §4.2 Step 2 — the recursive expansion walk.  A
canonical path already visited in the current walk is skipped (the guard
against symbolic-link cycles); otherwise its files are emitted, its
sub-directories queued, and the path recorded in the expansion log (the
second component).  Termination rests on the visited set growing inside the
finite set of canonical paths. -/
def walkDirs (fs : FileSystem) (visited pending : List String) :
    List ItemFile × List String :=
  match pending with
  | [] => ([], [])
  | p :: rest =>
    if hp : p ∈ visited then walkDirs fs visited rest
    else
      let r := walkDirs fs (p :: visited) (subdirsOf fs p ++ rest)
      (filesOf fs p ++ r.1, p :: r.2)
termination_by (unvisitedCount fs visited, pending.length)
decreasing_by
  · apply Prod.Lex.right
    simp
  · by_cases hk : p ∈ fsKeys fs
    · apply Prod.Lex.left
      have himp : ∀ k : String, (!((p :: visited).contains k)) = true →
          (!(visited.contains k)) = true := by
        intro k h
        simp only [List.contains_cons, Bool.not_or, Bool.and_eq_true] at h
        exact h.2
      have hsub : List.Sublist ((fsKeys fs).filter fun k => !((p :: visited).contains k))
          ((fsKeys fs).filter fun k => !(visited.contains k)) :=
        List.monotone_filter_right _ himp
      have hle := hsub.length_le
      rcases Nat.lt_or_ge (((fsKeys fs).filter fun k => !((p :: visited).contains k)).length)
          (((fsKeys fs).filter fun k => !(visited.contains k)).length) with hlt | hge
      · exact hlt
      · exfalso
        have heq := hsub.eq_of_length (Nat.le_antisymm hle hge)
        have hpmem : p ∈ (fsKeys fs).filter fun k => !(visited.contains k) := by
          simp only [List.mem_filter]
          exact ⟨hk, by simp [hp]⟩
        rw [← heq] at hpmem
        simp only [List.mem_filter, List.contains_cons] at hpmem
        simp at hpmem
    · have hkeq : unvisitedCount fs (p :: visited) = unvisitedCount fs visited := by
        unfold unvisitedCount
        apply congrArg List.length
        apply List.filter_congr
        intro k hkmem
        have hne : k ≠ p := fun h => hk (h ▸ hkmem)
        simp [List.contains_cons, hne]
      have hsd : subdirsOf fs p = [] := by
        have hch : childrenOf fs p = [] := by
          unfold childrenOf
          have : (fs.find? fun e => e.1 == p) = none := by
            rw [List.find?_eq_none]
            intro e he
            simp only [beq_iff_eq]
            intro hcontra
            exact hk (hcontra ▸ List.mem_map_of_mem Prod.fst he)
          rw [this]
        unfold subdirsOf
        rw [hch]
        rfl
      rw [hkeq, hsd]
      apply Prod.Lex.right
      simp

/-- Modelled from the spec: §4.2 Step 2 — an accepted directory item whose
expansion predicate fires is replaced by the walk's expanded file items (the
original directory item is dropped); every other item passes through. -/
def expandStep (fs : FileSystem) (se : Item → Bool) (items : List Item) : List Item :=
  items.flatMap fun it =>
    match it with
    | .directory d =>
      if se (.directory d) then (walkDirs fs [] [d.path]).1.map Item.file
      else [it]
    | _ => [it]

/-- Modelled from the spec: §4.2 Steps 1-2 — the accepted set handed to
grouping: Step 1 acceptance filtering, directory expansion, then Step 1
re-run on the expanded set. -/
def dispatchAccepted {O : Type} (flags : AcceptsFlags O) (o : O) (fs : FileSystem)
    (se : Item → Bool) (incoming : List Item) : List Item :=
  (expandStep fs se (incoming.filter fun it => accepted flags it o)).filter
    fun it => accepted flags it o

/-! ### Sample data used by concrete examples and witnesses. -/

def jpgFile : Item := .file ⟨"f1", 0, "jpg", "/pics/a.jpg", 10⟩

def pngFile : Item := .file ⟨"f2", 0, "png", "/pics/b.png", 20⟩

def txtFile : Item := .file ⟨"f3", 0, "txt", "/docs/c.txt", 5⟩

/-- An acceptance declaration `accepts.files = ["jpg", fn]` with `fn`
returning `false` on every item. -/
def jpgOrNeverFlags : AcceptsFlags Unit :=
  { files := some (.many [.strPat "jpg", .predPat fun _ _ => false]) }

/-- An acceptance declaration `accepts.files = ["jpg", fn]` with `fn`
accepting exactly png files. -/
def jpgOrPngPredFlags : AcceptsFlags Unit :=
  { files := some (.many [.strPat "jpg", .predPat fun it _ => it.naturalField == "png"]) }

/-- An acceptance declaration with no keys at all. -/
def emptyFlags : AcceptsFlags Unit := {}

/-- An acceptance declaration accepting every file. -/
def allFilesFlags : AcceptsFlags Unit := { files := some (.flag true) }

/-- An acceptance declaration accepting every file and every directory. -/
def filesAndDirsFlags : AcceptsFlags Unit :=
  { files := some (.flag true), directories := some (.flag true) }

/-- A filesystem with a symbolic-link cycle: `/a` links to `/b` and `/b`
links back to `/a`. -/
def cycleFs : FileSystem :=
  [("/a", [.childFile ⟨"fa", 0, "png", "/a/f.png", 1⟩, .childDir "/b"]),
   ("/b", [.childDir "/a"])]

def dirItemA : Item := .directory ⟨"d1", 0, "/a"⟩

def expandedPng : Item := .file ⟨"fa", 0, "png", "/a/f.png", 1⟩

/-- A sample schema exercising every class of node: a scalar with no
default, a scalar with a default, a non-nullable select, a namespace, a
collection and a list. -/
def sampleSchema : List OptionNode :=
  [.booleanNode "deep" none,
   .numberNode "threads" (some 5) false,
   .selectNode "mode" none (.arrayForm ["fast", "slow"]) false,
   .namespaceNode "advanced" [.stringNode "suffix" (some "-out")] none,
   .collectionNode "rules" [.booleanNode "on" none] none,
   .listNode "sizes" none .numberItem]

/-- A partial value tree for `sampleSchema`: out-of-range numbers are kept
verbatim (the resolver does not clamp) and one collection row is supplied. -/
def sampleValues : List (String × Value) :=
  [("threads", .vNum 20), ("rules", .vList [.vObj []])]

/-! ### Dependency lifecycle lemmas. -/

theorem runRequests_loading (rids : List Nat) :
    ∀ (ws : List Nat) (a : Nat),
      runRequests ⟨.loading ws, a⟩ rids = ⟨.loading (ws ++ rids), a⟩ := by
  induction rids with
  | nil => intro ws a; simp [runRequests]
  | cons r rest ih =>
    intro ws a
    have : runRequests ⟨.loading ws, a⟩ (r :: rest) =
        runRequests ⟨.loading (ws ++ [r]), a⟩ rest := by
      simp [runRequests, requestLoad]
    rw [this, ih]
    simp

/-! ### Claim theorems for the declaration shapes and the simpler engine
steps. -/

/-- C10: in each of the three historical versions of the
acceptance-declaration type, the `blobs` entry admits only boolean, string
and predicate alternatives — never a RegExp — while the `files`,
`directories`, `strings` and `urls` entries each additionally admit RegExp
alternatives. -/
theorem c10_blobs_never_regexp :
    (acceptsAltFormsV1 .blobs = [.booleanForm, .stringForm, .predicateForm] ∧
      acceptsAltFormsV2 .blobs = [.booleanForm, .stringForm, .predicateForm] ∧
      acceptsAltFormsV3 .blobs = [.booleanForm, .stringForm, .predicateForm]) ∧
    (AltForm.regexpForm ∉ acceptsAltFormsV1 .blobs ∧
      AltForm.regexpForm ∉ acceptsAltFormsV2 .blobs ∧
      AltForm.regexpForm ∉ acceptsAltFormsV3 .blobs) ∧
    (∀ v ∈ acceptsFlagsVersions,
      AltForm.regexpForm ∈ v .files ∧ AltForm.regexpForm ∈ v .directories ∧
        AltForm.regexpForm ∈ v .strings ∧ AltForm.regexpForm ∈ v .urls) := by
  refine ⟨⟨rfl, rfl, rfl⟩, ⟨by decide, by decide, by decide⟩, ?_⟩
  intro v hv
  simp only [acceptsFlagsVersions, List.mem_cons, List.not_mem_nil, or_false] at hv
  rcases hv with rfl | rfl | rfl <;> exact ⟨by decide, by decide, by decide, by decide⟩

/-- C10 witness: the first historical version is one of the recorded
versions, and its `files` entry admits a RegExp while its `blobs` entry does
not. -/
theorem c10_blobs_never_regexp_witness :
    AltForm.regexpForm ∈ acceptsAltFormsV1 .files ∧
      AltForm.regexpForm ∉ acceptsAltFormsV1 .blobs :=
  ⟨(c10_blobs_never_regexp.2.2 acceptsAltFormsV1 (by simp [acceptsFlagsVersions])).1,
    c10_blobs_never_regexp.2.1.1⟩

/-- C9 counterexample: the claim that every modal/dialog operation returns a
cancelable result of the shape `\x7bcanceled, payload, modifiers?\x7d` fails at
`alert`, whose declared resolution type is `void` and carries neither a
`canceled` nor a `payload` field. -/
theorem c9_counterexample :
    ¬ ∀ op : ModalOp,
        (modalResultShape op).hasCanceled = true ∧ (modalResultShape op).hasPayload = true := by
  intro h
  exact absurd (h .alert).1 (by decide)

/-- C9 (amended): `confirm`, `prompt` and `promptOptions` resolve to a
cancelable `\x7bcanceled, payload, modifiers\x7d` result; `openModalWindow`
resolves to `\x7bcanceled, payload\x7d` without `modifiers`; the file dialogs
resolve to cancelable results whose chosen paths travel in
`filePaths`/`filePath` fields rather than a `payload` field; `alert` resolves
to `void` with no result object at all. -/
theorem c9_modal_result_shapes :
    ∀ op : ModalOp,
      ((modalResultShape op).hasCanceled = true ↔ op ≠ .alert) ∧
      ((modalResultShape op).hasPayload = true ↔
        op = .confirm ∨ op = .prompt ∨ op = .promptOptions ∨ op = .openModalWindow) ∧
      ((modalResultShape op).hasModifiers = true ↔
        op = .confirm ∨ op = .prompt ∨ op = .promptOptions) := by
  decide

/-- C9 witness: the amended shape facts instantiated at `confirm`. -/
theorem c9_modal_result_shapes_witness :
    ((modalResultShape .confirm).hasCanceled = true ↔ ModalOp.confirm ≠ .alert) ∧
      ((modalResultShape .confirm).hasPayload = true ↔
        ModalOp.confirm = .confirm ∨ ModalOp.confirm = .prompt ∨
          ModalOp.confirm = .promptOptions ∨ ModalOp.confirm = .openModalWindow) ∧
      ((modalResultShape .confirm).hasModifiers = true ↔
        ModalOp.confirm = .confirm ∨ ModalOp.confirm = .prompt ∨
          ModalOp.confirm = .promptOptions) :=
  c9_modal_result_shapes .confirm

/-- C3: an item is accepted iff its kind has a declaration entry and at least
one alternative in that entry matches (OR semantics over alternatives), and a
declaration with no keys accepts nothing; concretely, with
`accepts.files = ["jpg", fn]` a `.jpg` file is accepted even when `fn` returns
`false`, an item on which `fn` returns `true` is accepted even when the
string alternative does not match, and absence of the `files` key rejects
files. -/
theorem c3_acceptance_or_semantics :
    (∀ (O : Type) (flags : AcceptsFlags O) (it : Item) (o : O),
        accepted flags it o = true ↔
          ∃ e, flags.entryFor it.itemKind = some e ∧
            ∃ a ∈ e.alternatives, matchAlt a it o = true) ∧
    accepted jpgOrNeverFlags jpgFile () = true ∧
    accepted jpgOrPngPredFlags pngFile () = true ∧
    accepted jpgOrNeverFlags txtFile () = false ∧
    (∀ (it : Item) (o : Unit), accepted emptyFlags it o = false) := by
  refine ⟨?_, rfl, rfl, rfl, ?_⟩
  · intro O flags it o
    unfold accepted
    cases h : flags.entryFor it.itemKind with
    | none => simp
    | some e => simp [List.any_eq_true]
  · intro it o
    cases it <;> rfl

/-- C2: grouping with a truthy bulk policy emits exactly one operation whose
`items` is the full accepted set and whose singular `item` is undefined;
grouping with a falsy (or absent, modelled as the flag `false`) policy emits
one operation per item, each with a single-element `items` and `item` set to
that element; a predicate policy is evaluated exactly once per match cycle
regardless of the number of items, and a flag policy never invokes a
predicate. -/
theorem c2_bulk_grouping (O : Type) (policy : BulkPolicy O) (items : List Item) (o : O)
    (hne : items ≠ []) :
    ((evalBulk policy items o).1 = true →
        (groupOperations policy items o).1 = [⟨o, items, none⟩]) ∧
    ((evalBulk policy items o).1 = false →
        (groupOperations policy items o).1 = items.map fun it => ⟨o, [it], some it⟩) ∧
    ((groupOperations policy items o).1.length =
        if (evalBulk policy items o).1 then 1 else items.length) ∧
    (∀ f : List Item → O → Bool, policy = .pred f → (groupOperations policy items o).2 = 1) ∧
    (∀ b : Bool, policy = .flag b → (groupOperations policy items o).2 = 0) := by
  have _ := hne
  refine ⟨?_, ?_, ?_, ?_, ?_⟩
  · intro h; simp [groupOperations, h]
  · intro h; simp [groupOperations, h]
  · by_cases h : (evalBulk policy items o).1 <;> simp [groupOperations, h]
  · rintro f rfl
    simp only [groupOperations, evalBulk]
    split <;> rfl
  · rintro b rfl
    by_cases hb : b <;> simp [groupOperations, evalBulk, hb]

/-- C2 witness: the grouping facts instantiated for two items under a
predicate policy that requests bulk exactly when at least two items arrived. -/
theorem c2_bulk_grouping_witness :
    [jpgFile, pngFile] ≠ ([] : List Item) ∧
    (((evalBulk (BulkPolicy.pred fun its _ => 2 ≤ its.length) [jpgFile, pngFile] ()).1 = true →
        (groupOperations (BulkPolicy.pred fun its _ => 2 ≤ its.length) [jpgFile, pngFile] ()).1 =
          [⟨(), [jpgFile, pngFile], none⟩]) ∧
      (((evalBulk (BulkPolicy.pred fun its _ => 2 ≤ its.length) [jpgFile, pngFile] ()).1 = false →
        (groupOperations (BulkPolicy.pred fun its _ => 2 ≤ its.length) [jpgFile, pngFile] ()).1 =
          [jpgFile, pngFile].map fun it => ⟨(), [it], some it⟩)) ∧
      ((groupOperations (BulkPolicy.pred fun its _ => 2 ≤ its.length) [jpgFile, pngFile] ()).1.length =
        if (evalBulk (BulkPolicy.pred fun its _ => 2 ≤ its.length) [jpgFile, pngFile] ()).1 then 1
        else ([jpgFile, pngFile] : List Item).length) ∧
      (∀ f : List Item → Unit → Bool,
        BulkPolicy.pred (fun its (_ : Unit) => 2 ≤ its.length) = .pred f →
          (groupOperations (BulkPolicy.pred fun its _ => 2 ≤ its.length) [jpgFile, pngFile] ()).2 = 1) ∧
      (∀ b : Bool,
        BulkPolicy.pred (fun its (_ : Unit) => 2 ≤ its.length) = .flag b →
          (groupOperations (BulkPolicy.pred fun its _ => 2 ≤ its.length) [jpgFile, pngFile] ()).2 = 0)) :=
  ⟨by simp, c2_bulk_grouping Unit (.pred fun its _ => 2 ≤ its.length) [jpgFile, pngFile] () (by simp)⟩

/-- C6: starting from an unloaded dependency cell, any non-empty burst of
concurrent `load()` requests starts exactly one underlying load attempt, all
requesters await that single in-flight load as its waiters, and on completion
every requester observes the same resolved state. -/
theorem c6_single_inflight_load (rids : List Nat) (hne : rids ≠ []) :
    (runRequests ⟨.unloaded, 0⟩ rids).attempts = 1 ∧
    (runRequests ⟨.unloaded, 0⟩ rids).state = .loading rids ∧
    ∀ r : LoadOutcome,
      (completeLoad (runRequests ⟨.unloaded, 0⟩ rids) r).2 = rids.map fun w => (w, r) := by
  cases rids with
  | nil => exact absurd rfl hne
  | cons r rest =>
    have hstep : runRequests ⟨.unloaded, 0⟩ (r :: rest) =
        runRequests ⟨.loading [r], 1⟩ rest := by
      simp [runRequests, requestLoad]
    rw [hstep, runRequests_loading]
    refine ⟨rfl, by simp, ?_⟩
    intro out
    simp [completeLoad]

/-- C6 witness: two concurrent requesters, numbered 7 and 8, produce one load
attempt, share the in-flight load, and both observe the ready outcome. -/
theorem c6_single_inflight_load_witness :
    [7, 8] ≠ ([] : List Nat) ∧
    ((runRequests ⟨.unloaded, 0⟩ [7, 8]).attempts = 1 ∧
      (runRequests ⟨.unloaded, 0⟩ [7, 8]).state = .loading [7, 8] ∧
      ∀ r : LoadOutcome,
        (completeLoad (runRequests ⟨.unloaded, 0⟩ [7, 8]) r).2 = [7, 8].map fun w => (w, r)) :=
  ⟨by simp, c6_single_inflight_load [7, 8] (by simp)⟩

/-- C7: an operation whose required dependency fails to load is never
dispatched and the failure is surfaced as an error; when every required
dependency loads, the operation dispatches with a binding for every required
and optional name, and each optional dependency that failed to load
contributes an absent (`none`) entry. -/
theorem c7_required_vs_optional (required optionalDeps : List String)
    (outcome : String → LoadOutcome) :
    ((∃ r ∈ required, (outcome r).isFailed = true) →
        ∃ n, resolveDependencies required optionalDeps outcome = .error n) ∧
    ((∀ r ∈ required, (outcome r).isFailed = false) →
        ∃ l, resolveDependencies required optionalDeps outcome = .ok l ∧
          (∀ r ∈ required, ∃ p, (r, some p) ∈ l) ∧
          (∀ n ∈ optionalDeps, (outcome n).isFailed = true →
            (n, (none : Option String)) ∈ l)) := by
  constructor
  · intro ⟨r, hr, hfail⟩
    have : (required.find? fun n => (outcome n).isFailed).isSome := by
      rw [List.find?_isSome]
      exact ⟨r, hr, hfail⟩
    unfold resolveDependencies
    cases h : required.find? fun n => (outcome n).isFailed with
    | none => rw [h] at this; simp at this
    | some n => exact ⟨n, rfl⟩
  · intro hok
    have hfind : (required.find? fun n => (outcome n).isFailed) = none := by
      rw [List.find?_eq_none]
      intro r hr
      simp [hok r hr]
    refine ⟨_, by unfold resolveDependencies; rw [hfind], ?_, ?_⟩
    · intro r hr
      obtain ⟨p, hp⟩ : ∃ p, (outcome r).payloadOf = some p := by
        cases h : outcome r with
        | ready p => exact ⟨p, rfl⟩
        | failedLoad e => have := hok r hr; rw [h] at this; simp [LoadOutcome.isFailed] at this
      exact ⟨p, List.mem_append_left _ (by rw [← hp]; exact List.mem_map_of_mem _ hr)⟩
    · intro n hn hfail
      have hp : (outcome n).payloadOf = none := by
        cases h : outcome n with
        | ready p => rw [h] at hfail; simp [LoadOutcome.isFailed] at hfail
        | failedLoad e => rfl
      exact List.mem_append_right _ (by rw [← hp]; exact List.mem_map_of_mem _ hn)

/-- C7 witness: with required `ffmpeg` loading successfully and optional
`waifu` failing, the operation dispatches with `ffmpeg` bound and `waifu`
absent. -/
theorem c7_required_vs_optional_witness :
    (∀ r ∈ ["ffmpeg"],
      ((fun n => if n = "ffmpeg" then LoadOutcome.ready "/bin/ffmpeg"
        else LoadOutcome.failedLoad "not found") r).isFailed = false) ∧
    (∃ l, resolveDependencies ["ffmpeg"] ["waifu"]
        (fun n => if n = "ffmpeg" then LoadOutcome.ready "/bin/ffmpeg"
          else LoadOutcome.failedLoad "not found") = .ok l ∧
      (∀ r ∈ ["ffmpeg"], ∃ p, (r, some p) ∈ l) ∧
      (∀ n ∈ ["waifu"],
        ((fun n => if n = "ffmpeg" then LoadOutcome.ready "/bin/ffmpeg"
          else LoadOutcome.failedLoad "not found") n).isFailed = true →
          (n, (none : Option String)) ∈ l)) := by
  have h : ∀ r ∈ ["ffmpeg"],
      ((fun n => if n = "ffmpeg" then LoadOutcome.ready "/bin/ffmpeg"
        else LoadOutcome.failedLoad "not found") r).isFailed = false := by
    intro r hr
    simp at hr
    simp [hr, LoadOutcome.isFailed]
  exact ⟨h, (c7_required_vs_optional ["ffmpeg"] ["waifu"] _).2 h⟩

/-- C8: a falsy return from a declared `operationPreparator` silently cancels
the operation — the result is an ok-with-no-operation outcome, not an error —
while a returned payload replaces the operation's payload with the returned
extra fields, the engine keeping the core fields (`id`, `options`, `item`,
`items`) of the draft; with no declared preparator the draft passes through
unchanged. -/
theorem c8_preparator_veto (O : Type) (f : Payload O → PrepOut O) (op : Payload O) :
    (f op.core = .falsy → applyPreparator (some f) op = .ok none) ∧
    (∀ p, f op.core = .payload p →
        applyPreparator (some f) op =
          .ok (some ⟨op.id, op.options, op.item, op.items, p.extra⟩)) ∧
    applyPreparator none op = .ok (some op) := by
  refine ⟨?_, ?_, rfl⟩
  · intro h; simp [applyPreparator, h]
  · intro p h; simp [applyPreparator, h]

/-- C8 witness: a preparator that vetoes every operation silently cancels a
concrete draft. -/
theorem c8_preparator_veto_witness :
    ((fun _ : Payload Unit => (PrepOut.falsy : PrepOut Unit))
        (Payload.core ⟨"op1", (), some jpgFile, some [jpgFile], [("note", "x")]⟩) = .falsy) ∧
    applyPreparator (some fun _ : Payload Unit => (PrepOut.falsy : PrepOut Unit))
        ⟨"op1", (), some jpgFile, some [jpgFile], [("note", "x")]⟩ = .ok none :=
  ⟨rfl,
    (c8_preparator_veto Unit (fun _ => (PrepOut.falsy : PrepOut Unit))
      ⟨"op1", (), some jpgFile, some [jpgFile], [("note", "x")]⟩).1 rfl⟩

/-! ### Directory-expansion theorems. -/

theorem walkDirs_log_fresh (fs : FileSystem) :
    ∀ (visited pending : List String),
      (walkDirs fs visited pending).2.Nodup ∧
      ∀ x ∈ (walkDirs fs visited pending).2, x ∉ visited := by
  intro visited pending
  induction visited, pending using walkDirs.induct fs with
  | case1 visited => simp [walkDirs]
  | case2 visited p rest hp ih =>
    rw [walkDirs]
    simp only [dif_pos hp]
    exact ⟨ih.1, fun x hx => ih.2 x hx⟩
  | case3 visited p rest hp ih =>
    rw [walkDirs]
    simp only [dif_neg hp]
    constructor
    · refine List.Nodup.cons ?_ ih.1
      intro hmem
      exact (ih.2 p hmem) (List.mem_cons_self p visited)
    · intro x hx
      rcases List.mem_cons.mp hx with rfl | hx'
      · exact hp
      · intro hxv
        exact (ih.2 x hx') (List.mem_cons_of_mem p hxv)

/-- C5: in one expansion walk a canonical path already expanded is never
expanded again — the expansion log is duplicate-free, the property that makes
the walk terminate across symbolic-link cycles; a directory item whose
expansion predicate fires is dropped once expansion occurs; and every item
that reaches grouping has passed Step 1 acceptance filtering again after
expansion. -/
theorem c5_expansion_cycle_safety {O : Type} (flags : AcceptsFlags O) (o : O)
    (fs : FileSystem) (se : Item → Bool) (incoming : List Item) (pending : List String) :
    (walkDirs fs [] pending).2.Nodup ∧
    (∀ d : ItemDirectory, se (.directory d) = true →
        Item.directory d ∉ expandStep fs se incoming) ∧
    (∀ it ∈ dispatchAccepted flags o fs se incoming, accepted flags it o = true) := by
  refine ⟨(walkDirs_log_fresh fs [] pending).1, ?_, ?_⟩
  · intro d hse hmem
    rw [expandStep, List.mem_flatMap] at hmem
    obtain ⟨it, _, hmem2⟩ := hmem
    cases it with
    | directory d' =>
      by_cases hse' : se (.directory d') = true
      · simp only [hse', if_true] at hmem2
        obtain ⟨f, _, heq⟩ := List.mem_map.mp hmem2
        exact Item.noConfusion heq
      · simp only [hse', if_false] at hmem2
        rcases List.mem_cons.mp hmem2 with heq | hnil
        · cases heq
          exact hse' hse
        · exact absurd hnil (List.not_mem_nil _)
    | file f => simp at hmem2
    | blob b => simp at hmem2
    | string s => simp at hmem2
    | url u => simp at hmem2
  · intro it hit
    exact (List.mem_filter.mp hit).2

/-- C5 witness: on the cyclic filesystem the walk's expansion log visits each
canonical path once; the expanded directory item `/a` is dropped; and the
expanded png file reappears in the final accepted set, re-accepted by
Step 1. -/
theorem c5_expansion_cycle_safety_witness :
    (walkDirs cycleFs [] ["/a"]).2.Nodup ∧
    ((fun _ : Item => true) (.directory ⟨"d1", 0, "/a"⟩) = true) ∧
    Item.directory ⟨"d1", 0, "/a"⟩ ∉ expandStep cycleFs (fun _ => true) [dirItemA] ∧
    expandedPng ∈ dispatchAccepted filesAndDirsFlags () cycleFs (fun _ => true) [dirItemA] ∧
    accepted filesAndDirsFlags expandedPng () = true := by
  have h := c5_expansion_cycle_safety filesAndDirsFlags () cycleFs (fun _ => true) [dirItemA] ["/a"]
  have hmem : expandedPng ∈ dispatchAccepted filesAndDirsFlags () cycleFs (fun _ => true) [dirItemA] := by
    simp [dispatchAccepted, expandStep, walkDirs, cycleFs, subdirsOf, childrenOf, filesOf,
      List.find?, dirItemA, expandedPng, accepted, filesAndDirsFlags, AcceptsFlags.entryFor,
      AcceptEntry.alternatives, Item.itemKind, List.filter, matchAlt]
  exact ⟨h.1, rfl, h.2.1 ⟨"d1", 0, "/a"⟩ rfl, hmem, h.2.2 expandedPng hmem⟩

/-! ### Options resolver theorems. -/

theorem resolveSchema_cons (n : OptionNode) (rest : List OptionNode)
    (m : List (String × Value)) :
    resolveSchema (n :: rest) m =
      (nodeName n, resolveNode n (lookupField (nodeName n) m)) :: resolveSchema rest m := by
  simp only [resolveSchema]

theorem resolveSchema_keys (s : List OptionNode) (m : List (String × Value)) :
    (resolveSchema s m).map Prod.fst = s.map nodeName := by
  induction s with
  | nil => simp [resolveSchema]
  | cons n rest ih => simp [resolveSchema_cons, ih]

theorem lookupField_mem_keys (k : String) (m : List (String × Value))
    (h : k ∈ m.map Prod.fst) : ∃ v, lookupField k m = some v := by
  induction m with
  | nil => simp at h
  | cons p rest ih =>
    by_cases hk : p.1 = k
    · exact ⟨p.2, by simp [lookupField, hk]⟩
    · rw [lookupField, if_neg hk]
      apply ih
      simp only [List.map_cons, List.mem_cons] at h
      rcases h with h | h
      · exact absurd h.symm hk
      · exact h

theorem resolveSchema_indep (s : List OptionNode) (p : String × Value)
    (m : List (String × Value)) (hp : p.1 ∉ s.map nodeName) :
    resolveSchema s (p :: m) = resolveSchema s m := by
  induction s with
  | nil => simp [resolveSchema]
  | cons n rest ih =>
    simp only [List.map_cons, List.mem_cons] at hp
    push_neg at hp
    rw [resolveSchema_cons, resolveSchema_cons]
    have hlk : lookupField (nodeName n) (p :: m) = lookupField (nodeName n) m := by
      rw [lookupField, if_neg hp.1]
    rw [hlk, ih hp.2]

theorem fallbackStr_shape (d : Option String) : ∃ s, fallbackStr d = .vStr s := by
  cases d with
  | none => exact ⟨"", rfl⟩
  | some s => exact ⟨s, rfl⟩

theorem resolveNode_boolean_idem (nm : String) (d : Option Bool) (v : Option Value) :
    resolveNode (.booleanNode nm d) (some (resolveNode (.booleanNode nm d) v)) =
      resolveNode (.booleanNode nm d) v := by
  have hfb : ∃ b, fallbackBool d = .vBool b := by
    cases d with
    | none => exact ⟨false, rfl⟩
    | some b => exact ⟨b, rfl⟩
  obtain ⟨b0, hb0⟩ := hfb
  rcases v with _ | w
  · simp [resolveNode, hb0]
  · cases w <;> simp [resolveNode, hb0]

theorem resolveNode_number_fallback (nm : String) (d : Option Int) (nb : Bool) :
    resolveNode (.numberNode nm d nb) (some (fallbackNum d nb)) = fallbackNum d nb := by
  cases d with
  | some n => simp [resolveNode, fallbackNum]
  | none => cases nb <;> simp [resolveNode, fallbackNum]

theorem resolveNode_number_idem (nm : String) (d : Option Int) (nb : Bool) (v : Option Value) :
    resolveNode (.numberNode nm d nb) (some (resolveNode (.numberNode nm d nb) v)) =
      resolveNode (.numberNode nm d nb) v := by
  rcases v with _ | w
  · simpa [resolveNode] using resolveNode_number_fallback nm d nb
  · cases w with
    | vNum n => simp [resolveNode]
    | vNull =>
      cases nb with
      | true => simp [resolveNode]
      | false => simpa [resolveNode] using resolveNode_number_fallback nm d false
    | vBool b => simpa [resolveNode] using resolveNode_number_fallback nm d nb
    | vStr s => simpa [resolveNode] using resolveNode_number_fallback nm d nb
    | vList l => simpa [resolveNode] using resolveNode_number_fallback nm d nb
    | vObj f => simpa [resolveNode] using resolveNode_number_fallback nm d nb

theorem resolveNode_string_idem (nm : String) (d : Option String) (v : Option Value) :
    resolveNode (.stringNode nm d) (some (resolveNode (.stringNode nm d) v)) =
      resolveNode (.stringNode nm d) v := by
  obtain ⟨s0, hs0⟩ := fallbackStr_shape d
  rcases v with _ | w
  · simp [resolveNode, hs0]
  · cases w <;> simp [resolveNode, hs0]

theorem resolveNode_color_idem (nm : String) (d : Option String) (v : Option Value) :
    resolveNode (.colorNode nm d) (some (resolveNode (.colorNode nm d) v)) =
      resolveNode (.colorNode nm d) v := by
  obtain ⟨s0, hs0⟩ := fallbackStr_shape d
  rcases v with _ | w
  · simp [resolveNode, hs0]
  · cases w <;> simp [resolveNode, hs0]

theorem resolveNode_path_idem (nm : String) (d : Option String) (v : Option Value) :
    resolveNode (.pathNode nm d) (some (resolveNode (.pathNode nm d) v)) =
      resolveNode (.pathNode nm d) v := by
  obtain ⟨s0, hs0⟩ := fallbackStr_shape d
  rcases v with _ | w
  · simp [resolveNode, hs0]
  · cases w <;> simp [resolveNode, hs0]

theorem resolveNode_category_idem (nm : String) (d : Option String) (opts : List String)
    (v : Option Value) :
    resolveNode (.categoryNode nm d opts) (some (resolveNode (.categoryNode nm d opts) v)) =
      resolveNode (.categoryNode nm d opts) v := by
  obtain ⟨s0, hs0⟩ := fallbackStr_shape d
  rcases v with _ | w
  · simp [resolveNode, hs0]
  · cases w <;> simp [resolveNode, hs0]

theorem resolveNode_select_fallback (nm : String) (d : Option String) (opts : SelectOptions)
    (nb : Bool) :
    resolveNode (.selectNode nm d opts nb) (some (fallbackSel d opts nb)) =
      fallbackSel d opts nb := by
  cases d with
  | some s =>
    by_cases hc : s ∈ opts.entries
    · simp [resolveNode, fallbackSel, hc]
    · simp [resolveNode, fallbackSel, hc]
  | none =>
    cases nb with
    | true => simp [resolveNode, fallbackSel]
    | false =>
      cases hopts : opts.entries with
      | nil => simp [resolveNode, fallbackSel, hopts]
      | cons e es => simp [resolveNode, fallbackSel, hopts, List.contains_cons]

theorem resolveNode_select_idem (nm : String) (d : Option String) (opts : SelectOptions)
    (nb : Bool) (v : Option Value) :
    resolveNode (.selectNode nm d opts nb) (some (resolveNode (.selectNode nm d opts nb) v)) =
      resolveNode (.selectNode nm d opts nb) v := by
  rcases v with _ | w
  · simpa [resolveNode] using resolveNode_select_fallback nm d opts nb
  · cases w with
    | vStr s =>
      by_cases hc : s ∈ opts.entries
      · simp [resolveNode, hc]
      · simpa [resolveNode, hc] using resolveNode_select_fallback nm d opts nb
    | vNull =>
      cases nb with
      | true => simp [resolveNode]
      | false => simpa [resolveNode] using resolveNode_select_fallback nm d opts false
    | vBool b => simpa [resolveNode] using resolveNode_select_fallback nm d opts nb
    | vNum n => simpa [resolveNode] using resolveNode_select_fallback nm d opts nb
    | vList l => simpa [resolveNode] using resolveNode_select_fallback nm d opts nb
    | vObj f => simpa [resolveNode] using resolveNode_select_fallback nm d opts nb

theorem resolveNode_list_fallback (nm : String) (d : Option (List Value))
    (item : ListItemSchema) :
    resolveNode (.listNode nm d item) (some (fallbackList d)) = fallbackList d := by
  cases d with
  | none => simp [resolveNode, fallbackList]
  | some vs =>
    by_cases h : vs.all (elemMatches item)
    · simp [resolveNode, fallbackList, h]
    · simp [resolveNode, fallbackList, h]

theorem resolveNode_list_idem (nm : String) (d : Option (List Value)) (item : ListItemSchema)
    (v : Option Value) :
    resolveNode (.listNode nm d item) (some (resolveNode (.listNode nm d item) v)) =
      resolveNode (.listNode nm d item) v := by
  rcases v with _ | w
  · simpa [resolveNode] using resolveNode_list_fallback nm d item
  · cases w with
    | vList vs =>
      by_cases h : vs.all (elemMatches item)
      · simp [resolveNode, h]
      · simpa [resolveNode, h] using resolveNode_list_fallback nm d item
    | vBool b => simpa [resolveNode] using resolveNode_list_fallback nm d item
    | vNum n => simpa [resolveNode] using resolveNode_list_fallback nm d item
    | vStr s => simpa [resolveNode] using resolveNode_list_fallback nm d item
    | vNull => simpa [resolveNode] using resolveNode_list_fallback nm d item
    | vObj f => simpa [resolveNode] using resolveNode_list_fallback nm d item

mutual

theorem resolveNode_idem : ∀ (n : OptionNode), nodeWF n = true →
    ∀ v : Option Value, resolveNode n (some (resolveNode n v)) = resolveNode n v
  | .booleanNode nm d, _, v => resolveNode_boolean_idem nm d v
  | .numberNode nm d nb, _, v => resolveNode_number_idem nm d nb v
  | .stringNode nm d, _, v => resolveNode_string_idem nm d v
  | .colorNode nm d, _, v => resolveNode_color_idem nm d v
  | .pathNode nm d, _, v => resolveNode_path_idem nm d v
  | .selectNode nm d opts nb, _, v => resolveNode_select_idem nm d opts nb v
  | .listNode nm d item, _, v => resolveNode_list_idem nm d item v
  | .categoryNode nm d opts, _, v => resolveNode_category_idem nm d opts v
  | .namespaceNode nm sch d, h, v => by
    have hs : schemaWF sch = true := by simpa [nodeWF] using h
    simp only [resolveNode, namespaceInput]
    exact congrArg Value.vObj (resolveSchema_idem sch hs _)
  | .collectionNode nm sch d, h, v => by
    have hs : schemaWF sch = true := by simpa [nodeWF] using h
    simp only [resolveNode, collectionInput]
    exact congrArg Value.vList (resolveItems_idem sch hs _)
termination_by n h v => (sizeOf n, 0)

theorem resolveSchema_idem : ∀ (s : List OptionNode), schemaWF s = true →
    ∀ m : List (String × Value), resolveSchema s (resolveSchema s m) = resolveSchema s m
  | [], _, m => by simp [resolveSchema]
  | n :: rest, h, m => by
    have h' := h
    rw [schemaWF] at h'
    simp only [Bool.and_eq_true, Bool.not_eq_true'] at h'
    obtain ⟨⟨hnc, hwf⟩, hrest⟩ := h'
    have hmem : nodeName n ∉ rest.map nodeName := by simpa using hnc
    rw [resolveSchema_cons n rest m]
    rw [resolveSchema_cons n rest
      ((nodeName n, resolveNode n (lookupField (nodeName n) m)) :: resolveSchema rest m)]
    have hlk : lookupField (nodeName n)
        ((nodeName n, resolveNode n (lookupField (nodeName n) m)) :: resolveSchema rest m) =
        some (resolveNode n (lookupField (nodeName n) m)) := by
      rw [lookupField, if_pos rfl]
    rw [hlk, resolveNode_idem n hwf (lookupField (nodeName n) m),
      resolveSchema_indep rest _ _ hmem, resolveSchema_idem rest hrest m]
termination_by s h m => (sizeOf s, 0)

theorem resolveItems_idem : ∀ (sch : List OptionNode), schemaWF sch = true →
    ∀ vs : List Value, resolveItems sch (resolveItems sch vs) = resolveItems sch vs
  | _, _, [] => by simp [resolveItems]
  | sch, h, v :: vs => by
    simp only [resolveItems]
    rw [show itemObj (Value.vObj (resolveSchema sch (itemObj v))) =
      resolveSchema sch (itemObj v) from rfl]
    rw [resolveSchema_idem sch h (itemObj v), resolveItems_idem sch h vs]
termination_by sch h vs => (sizeOf sch, 1 + sizeOf vs)

end

/-- C1: for every well-formed options schema and every partial value tree,
resolution yields a value for every node of the schema (defaulting law), and
resolving the already-resolved output again returns it unchanged
(idempotence). -/
theorem c1_resolve_defaults_and_idempotent (s : List OptionNode)
    (m : List (String × Value)) (hs : schemaWF s = true) :
    (∀ n ∈ s, ∃ v, lookupField (nodeName n) (resolveSchema s m) = some v) ∧
    resolveSchema s (resolveSchema s m) = resolveSchema s m := by
  constructor
  · intro n hn
    apply lookupField_mem_keys
    rw [resolveSchema_keys]
    exact List.mem_map_of_mem _ hn
  · exact resolveSchema_idem s hs m

/-- C1 witness: the defaulting and idempotence laws instantiated at the
sample schema and value tree. -/
theorem c1_resolve_defaults_and_idempotent_witness :
    schemaWF sampleSchema = true ∧
    ((∀ n ∈ sampleSchema,
        ∃ v, lookupField (nodeName n) (resolveSchema sampleSchema sampleValues) = some v) ∧
      resolveSchema sampleSchema (resolveSchema sampleSchema sampleValues) =
        resolveSchema sampleSchema sampleValues) := by
  have hwf : schemaWF sampleSchema = true := by
    simp [sampleSchema, schemaWF, nodeWF, nodeName]
  exact ⟨hwf, c1_resolve_defaults_and_idempotent sampleSchema sampleValues hwf⟩

/-- C4: a select node declared with `nullable: false` never resolves to
`null`, whatever value the input tree supplies; and when such a node has no
default, the resolver falls back to the first entry of its options (the first
array element in array form, the first key in object form). -/
theorem c4_select_non_nullable (nm : String) (d : Option String) (opts : SelectOptions)
    (v : Option Value) (e : String) (es : List String) (hent : opts.entries = e :: es) :
    resolveNode (.selectNode nm d opts false) v ≠ .vNull ∧
    (d = none → resolveNode (.selectNode nm d opts false) none = .vStr e) := by
  have hfb : ∃ s, fallbackSel d opts false = .vStr s := by
    cases d with
    | some s => exact ⟨s, rfl⟩
    | none => exact ⟨e, by simp [fallbackSel, hent]⟩
  obtain ⟨s0, hs0⟩ := hfb
  constructor
  · rcases v with _ | w
    · simp [resolveNode, hs0]
    · cases w with
      | vStr s =>
        by_cases hc : s ∈ opts.entries
        · simp [resolveNode, hc]
        · simp [resolveNode, hc, hs0]
      | vNull => simp [resolveNode, hs0]
      | vBool b => simp [resolveNode, hs0]
      | vNum n => simp [resolveNode, hs0]
      | vList l => simp [resolveNode, hs0]
      | vObj f => simp [resolveNode, hs0]
  · rintro rfl
    simp [resolveNode, fallbackSel, hent]

/-- C4 witness: a non-nullable select over the array-form options
`["fast", "slow"]`, with no default and a supplied `null`, resolves to
`"fast"`, never to `null`. -/
theorem c4_select_non_nullable_witness :
    (SelectOptions.arrayForm ["fast", "slow"]).entries = "fast" :: ["slow"] ∧
    (resolveNode (.selectNode "mode" none (.arrayForm ["fast", "slow"]) false)
        (some .vNull) ≠ .vNull ∧
      (none = (none : Option String) →
        resolveNode (.selectNode "mode" none (.arrayForm ["fast", "slow"]) false) none =
          .vStr "fast")) :=
  ⟨rfl, c4_select_non_nullable "mode" none (.arrayForm ["fast", "slow"]) (some .vNull)
    "fast" ["slow"] rfl⟩

end Drovp
